import Mathlib

/- Verification of the GreenPulse backend (FastAPI + native streaming loop).
   Shallow embedding of src/backend/pathway_stream.py, src/backend/main.py and
   src/backend/rag.py.  Python floats are modelled as rationals, JSON values as
   an inductive type, and the asynchronous loops as explicit step functions. -/

/- ── JSON-ish value model and the Python float() builtin ─────────────────── -/

/-- An IEEE-754 double as held by a Python float: a finite value (idealized
    as an exact rational, per the convention of this file) or one of the
    non-finite values. -/
inductive PyFloat where
  | finite (q : ℚ)
  | inf
  | ninf
  | nan
deriving DecidableEq

/-- A JSON-decoded Python value, as can appear in a WAQI payload field.
    Integer literals decode to arbitrary-precision Python ints; float
    literals decode to doubles (Python json also accepts the non-finite
    literals Infinity, -Infinity and NaN).  Lists and dicts are collapsed to
    markers: their payload is never read by safe_float, only their type
    matters (float() raises TypeError on them). -/
inductive Val where
  | null
  | bool (b : Bool)
  | int (n : ℤ)
  | float (f : PyFloat)
  | str (s : String)
  | list
  | dict
deriving DecidableEq

/-- Exception classes float() can raise on JSON-decoded values.  safe_float
    catches exactly ValueError and TypeError; OverflowError is not caught
    there and escapes safe_float (it is then absorbed by the outer
    except Exception of fetch_station, failing the whole station). -/
inductive PyErr where
  | valueError
  | typeError
  | overflowError
deriving DecidableEq

/-- Smallest integer magnitude on which float() overflows: an int converts
    by rounding to the nearest double and raises OverflowError exactly when
    the rounded magnitude exceeds the largest double 2^1024 - 2^971; with
    round-half-even the cutoff is 2^1024 - 2^970. -/
def overflowBound : ℕ := 2 ^ 1024 - 2 ^ 970

/-- The Python float() builtin on JSON values.  Numbers and bools convert
    (finite results idealized as exact rationals); an integer beyond the
    double range raises OverflowError; None, lists and dicts raise
    TypeError; float() on a float is the identity.  The string case is
    float()'s string conversion sp, taken as a parameter (its full grammar
    involves Unicode digit and space folding), and a string conversion never
    overflows — out-of-range decimal strings saturate to the non-finite
    values — so a failed parse is exactly ValueError. -/
def floatFn (sp : String → Option PyFloat) : Val → Except PyErr PyFloat
  | .null => .error .typeError
  | .bool b => .ok (.finite (if b then 1 else 0))
  | .int n =>
      if overflowBound ≤ n.natAbs then .error .overflowError
      else .ok (.finite (n : ℚ))
  | .float f => .ok f
  | .str s =>
      match sp s with
      | some f => .ok f
      | none => .error .valueError
  | .list => .error .typeError
  | .dict => .error .typeError

/- ── safe_float and reading construction (pathway_stream.py, fetch_station) ─ -/

/-- The tuple (None, "-", "", "NA", "N/A") tested by safe_float. -/
def sentinels : List Val := [.null, .str "-", .str "", .str "NA", .str "N/A"]

/-- Embedding of safe_float from WAQIConnector.fetch_station: sentinel check,
    then float(val), with ValueError and TypeError caught and replaced by the
    fallback.  The Except result records whether an exception escapes (an
    uncaught OverflowError does, as proved below). -/
def safe_float (sp : String → Option PyFloat) (v : Val) (fallback : ℚ) :
    Except PyErr PyFloat :=
  if v ∈ sentinels then .ok (.finite fallback)
  else
    match floatFn sp v with
    | .ok f => .ok f
    | .error e =>
        if e = .valueError ∨ e = .typeError then .ok (.finite fallback)
        else .error e

/-- The finite numeric value safe_float produces, used when the reading is
    built; channel values of a reading are modelled as finite rationals per
    the idealization of this file (the error and non-finite branches
    collapse to the fallback and are outside the modelled reading domain). -/
def sfv (sp : String → Option PyFloat) (v : Val) (fallback : ℚ) : ℚ :=
  match safe_float sp v fallback with
  | .ok (.finite q) => q
  | _ => fallback

/-- One entry of the iaqi dict: an object that may carry a "v" field. -/
structure IaqiEntry where
  v : Option Val

/-- Embedding of get_val: raw = (iaqi.get(key) or empty).get("v", 0) — the
    Python default 0 is an int — then safe_float(raw) with fallback 0.0. -/
def get_val (sp : String → Option PyFloat) (iaqi : String → Option IaqiEntry)
    (key : String) : ℚ :=
  let raw := match iaqi key with
    | none => Val.int 0
    | some e => e.v.getD (Val.int 0)
  sfv sp raw 0

/-- One fetched station record, after normalization (the dict returned by
    fetch_station on a status-ok response). -/
structure StationData where
  station : String
  aqi : ℚ
  pm25 : ℚ
  pm10 : ℚ
  no2 : ℚ
  so2 : ℚ
  o3 : ℚ
  co : ℚ
  timestamp : String
  city_name : String
deriving DecidableEq

/-- Embedding of the record construction at the end of fetch_station: every
    sensor channel goes through safe_float (directly for aqi, via get_val for
    the iaqi channels); the construction is total, so a reading is produced
    for every status-ok payload regardless of sentinel or malformed values. -/
def mkStationReading (sp : String → Option PyFloat) (station : String)
    (aqiRaw : Val) (iaqi : String → Option IaqiEntry) (ts cityName : String) :
    StationData :=
  { station := station
    aqi := sfv sp aqiRaw 0
    pm25 := get_val sp iaqi "pm25"
    pm10 := get_val sp iaqi "pm10"
    no2 := get_val sp iaqi "no2"
    so2 := get_val sp iaqi "so2"
    o3 := get_val sp iaqi "o3"
    co := get_val sp iaqi "co"
    timestamp := ts
    city_name := cityName }

/- ── Theorems for claims C7 and C9 ──────────────────────────────────────── -/

set_option maxRecDepth 8192 in
/-- C9 counterexample: safe_float is not total.  A JSON integer literal
    beyond the double range (here 10^400) makes float() raise OverflowError,
    which except (ValueError, TypeError) does not catch, so the exception
    escapes safe_float instead of yielding a number. -/
theorem safe_float_overflow_escapes :
    safe_float (fun _ => none) (Val.int ((10 ^ 400 : ℕ) : ℤ)) 0 = .error .overflowError ∧
      (safe_float (fun _ => none) (Val.int ((10 ^ 400 : ℕ) : ℤ)) 0).isOk = false ∧
      Val.int ((10 ^ 400 : ℕ) : ℤ) ∉ sentinels := by
  refine ⟨rfl, by decide, by decide⟩

/-- C9 amended: safe_float never lets an exception escape except for the
    uncaught OverflowError on an integer beyond the double range.  For every
    string-conversion semantics sp and every input: a value on which float()
    raises ValueError or TypeError (every unconvertible value, not only the
    five sentinel markers) is mapped to the fallback; an error escapes
    safe_float exactly when a non-sentinel input overflows; and only
    out-of-range integers overflow. -/
theorem safe_float_error_isolation (sp : String → Option PyFloat) (v : Val)
    (fb : ℚ) :
    ((floatFn sp v = .error .valueError ∨ floatFn sp v = .error .typeError) →
      safe_float sp v fb = .ok (.finite fb)) ∧
      ((safe_float sp v fb).isOk = false ↔
        (v ∉ sentinels ∧ floatFn sp v = .error .overflowError)) ∧
      (floatFn sp v = .error .overflowError →
        ∃ n : ℤ, v = .int n ∧ overflowBound ≤ n.natAbs) := by
  refine ⟨?_, ?_, ?_⟩
  · intro h
    by_cases hs : v ∈ sentinels
    · simp [safe_float, hs]
    · rcases h with h | h <;> simp [safe_float, hs, h]
  · by_cases hs : v ∈ sentinels
    · simp [safe_float, hs, Except.isOk, Except.toBool]
    · cases hf : floatFn sp v with
      | ok f => simp [safe_float, hs, hf, Except.isOk, Except.toBool]
      | error e =>
          cases e <;> simp [safe_float, hs, hf, Except.isOk, Except.toBool]
  · intro h
    cases v with
    | int n =>
        refine ⟨n, rfl, ?_⟩
        by_cases hb : overflowBound ≤ n.natAbs
        · exact hb
        · simp [floatFn, hb] at h
    | str s =>
        cases hsp : sp s with
        | none => simp [floatFn, hsp] at h
        | some f => simp [floatFn, hsp] at h
    | null => simp [floatFn] at h
    | bool b => simp [floatFn] at h
    | float f => simp [floatFn] at h
    | list => simp [floatFn] at h
    | dict => simp [floatFn] at h

set_option maxRecDepth 8192 in
/-- Witness for safe_float_error_isolation: an unparseable string maps to
    the fallback, and the overflow escape is witnessed at the integer
    10^400. -/
theorem safe_float_error_isolation_witness :
    floatFn (fun _ => none) (Val.str "oops") = .error .valueError ∧
      safe_float (fun _ => none) (Val.str "oops") 0 = .ok (.finite 0) ∧
      (∃ n : ℤ, Val.int ((10 ^ 400 : ℕ) : ℤ) = Val.int n ∧ overflowBound ≤ n.natAbs) :=
  ⟨rfl,
    (safe_float_error_isolation (fun _ => none) (Val.str "oops") 0).1 (.inl rfl),
    (safe_float_error_isolation (fun _ => none) (Val.int ((10 ^ 400 : ℕ) : ℤ)) 0).2.2
      rfl⟩

/-- C7: every recognized sentinel value (None, "-", "", "NA", "N/A") is
    normalized to the fallback 0.0 without an error, and the station reading
    is still constructed (its channel carries the fallback), so the reading
    and its poll cycle succeed. -/
theorem sentinel_normalized_to_fallback (sp : String → Option PyFloat)
    (v : Val) (fb : ℚ) (h : v ∈ sentinels) :
    safe_float sp v fb = .ok (.finite fb) ∧
      (∀ iaqi st ts cn, (iaqi = fun _ => some ⟨some v⟩) →
        (mkStationReading sp st v iaqi ts cn).aqi = 0 ∧
        (mkStationReading sp st v iaqi ts cn).pm25 = 0) := by
  refine ⟨by simp [safe_float, h], ?_⟩
  intro iaqi st ts cn hiaqi
  subst hiaqi
  constructor
  · show sfv sp v 0 = 0
    simp [sfv, safe_float, h]
  · show get_val sp (fun _ => some ⟨some v⟩) "pm25" = 0
    simp [get_val, sfv, safe_float, h]

/-- Witness for sentinel_normalized_to_fallback at the sentinel "-". -/
theorem sentinel_normalized_to_fallback_witness :
    Val.str "-" ∈ sentinels ∧
      safe_float (fun _ => none) (Val.str "-") 0 = .ok (.finite 0) ∧
      (mkStationReading (fun _ => none) "delhi/ito" (Val.str "-")
        (fun _ => some ⟨some (Val.str "-")⟩) "t" "Delhi").aqi = 0 := by
  refine ⟨by decide, ?_, ?_⟩
  · exact (sentinel_normalized_to_fallback (fun _ => none) (Val.str "-") 0
      (by decide)).1
  · exact (((sentinel_normalized_to_fallback (fun _ => none) (Val.str "-") 0
      (by decide)).2
      (fun _ => some ⟨some (Val.str "-")⟩) "delhi/ito" "t" "Delhi") rfl).1

/- ── City configuration (pathway_stream.CITIES_CONFIG) ──────────────────── -/

/-- Static configuration of one city: WAQI station ids and display metadata. -/
structure CityConfig where
  stations : List String
  color : String
  emoji : String
deriving DecidableEq

/-- Embedding of the CITIES_CONFIG dict, in insertion order. -/
def CITIES_CONFIG : List (String × CityConfig) :=
  [ ("Delhi", ⟨["delhi/anand-vihar", "delhi/punjabi-bagh", "delhi/ito",
                "delhi/dwarka-sector-8"], "#7fff00", "🏛"⟩),
    ("Mumbai", ⟨["mumbai/bandra-kurla", "mumbai/chembur", "mumbai/worli",
                 "mumbai/navi-mumbai"], "#38bdf8", "🌊"⟩),
    ("Kolkata", ⟨["kolkata/rabindra-bharati", "kolkata/victoria",
                  "kolkata/ballygunge", "kolkata/jadavpur"], "#f5a623", "⚓"⟩),
    ("Chennai", ⟨["chennai/alandur", "chennai/manali", "chennai/velachery",
                  "chennai/kodungaiyur"], "#c084fc", "🌴"⟩),
    ("Prayagraj", ⟨["allahabad/nh-27,-prayagraj",
                    "allahabad/civil-lines-prayagraj"], "#ff6b6b", "🕉"⟩) ]

def configLookup (c : String) : Option CityConfig :=
  (CITIES_CONFIG.find? (fun p => p.1 == c)).map (·.2)

/-- list(CITIES_CONFIG.keys()) in dict order. -/
def configCityNames : List String := CITIES_CONFIG.map (·.1)

/- ── Active city selection (main.select_cities) ─────────────────────────── -/

/-- Embedding of the list comprehension in select_cities: keep exactly the
    requested names that are keys of CITIES_CONFIG, in request order. -/
def selectFilter (req : List String) : List String :=
  req.filter (fun c => decide (c ∈ configCityNames))

/-- C6: the installed and returned active set is the request filtered to
    configured city names; unknown names are silently dropped and no error is
    raised (selectFilter is a total function). -/
theorem select_cities_effective (req : List String) (c : String) :
    (c ∈ selectFilter req ↔ c ∈ req ∧ c ∈ configCityNames) ∧
      selectFilter req ⊆ configCityNames := by
  constructor
  · simp [selectFilter]
  · intro x hx
    simp [selectFilter] at hx
    exact hx.2

/- ── Mutable streaming state (main._active_cities, AsyncProcessor, connector) ─ -/

/-- The three bindings that hold the active-city list: the module global
    _active_cities, the AsyncProcessor singleton attribute cities, and the
    list captured by the WAQIConnector when AsyncProcessor.start entered the
    async-with block (none before start).  No code in the repository mutates
    a city list in place — lists are only rebound — so immutable list values
    model the Python references faithfully. -/
structure StreamState where
  activeCities : List String
  procCities : List String
  connCities : Option (List String)
deriving DecidableEq

/-- State at startup: _active_cities = list(CITIES_CONFIG.keys()) and the
    processor singleton created by stream_loop with that same list. -/
def initStreamState : StreamState :=
  ⟨configCityNames, configCityNames, none⟩

/-- AsyncProcessor.start: WAQIConnector(self.cities) captures the value of
    processor.cities at entry; connector.stream then iterates this captured
    list on every cycle for the lifetime of the loop. -/
def startProcessor (s : StreamState) : StreamState :=
  { s with connCities := some s.procCities }

/-- Embedding of main.select_cities: rebinds _active_cities to the filtered
    request, rebinds processor.cities (get_processor returns the existing
    singleton, its argument is ignored), and returns the filtered list in the
    response; the connector binding is untouched. -/
def select_cities (req : List String) (s : StreamState) : StreamState × List String :=
  let active := selectFilter req
  ({ s with activeCities := active, procCities := active }, active)

/-- The city list a poll cycle iterates: WAQIConnector.fetch_all reads the
    connector-captured list (processor.cities only matters before start). -/
def cycleCities (s : StreamState) : List String :=
  s.connCities.getD s.procCities

/-- C2 (code bug): after the stream has started, a select-cities request
    updates processor.cities and the response, but every subsequent poll
    cycle still iterates the city list captured by the connector at start —
    the newly selected set is never used by the poll loop. -/
theorem select_cities_not_picked_up :
    (select_cities ["Delhi"] (startProcessor initStreamState)).2 = ["Delhi"] ∧
    (select_cities ["Delhi"] (startProcessor initStreamState)).1.procCities = ["Delhi"] ∧
    cycleCities (select_cities ["Delhi"] (startProcessor initStreamState)).1 = configCityNames ∧
    cycleCities (select_cities ["Delhi"] (startProcessor initStreamState)).1 ≠ ["Delhi"] := by
  refine ⟨by decide, by decide, by decide, by decide⟩

/- ── Zone records and per-cycle aggregation (pathway_stream.py) ─────────── -/

/-- Python round(x, n) rounds half to even; modelled exactly on rationals. -/
def roundHalfEven (q : ℚ) : ℤ :=
  let f := ⌊q⌋
  let r := q - f
  if r < 1/2 then f
  else if 1/2 < r then f + 1
  else if f % 2 = 0 then f else f + 1

def round2 (q : ℚ) : ℚ := (roundHalfEven (q * 100) : ℚ) / 100

def round1 (q : ℚ) : ℚ := (roundHalfEven (q * 10) : ℚ) / 10

/-- One row appended by fetch_all (a Zone Record of the spec).  data_source
    is the constant "live" and is omitted. -/
structure ZoneRecord where
  zone_id : String
  zone_name : String
  city : String
  timestamp : String
  aqi : ℚ
  pm25 : ℚ
  pm10 : ℚ
  no2 : ℚ
  so2 : ℚ
  o3 : ℚ
  co : ℚ
  co2_kg_hr : ℚ
deriving DecidableEq

/-- Per-city aggregate built by AsyncProcessor._process_batch. -/
structure CityStat where
  total_co2 : ℚ
  avg_aqi : ℚ
  avg_pm25 : ℚ
  count : ℕ
  color : String
  emoji : String
deriving DecidableEq

/-- pandas Series.mean on a non-empty column. -/
def listMean (l : List ℚ) : ℚ := l.sum / l.length

/-- Fuel-driven recursion for uniqueFirst (structural, so it reduces in the
    kernel); the fuel is always at least the list length at the call site. -/
def uniqueFirstAux : ℕ → List String → List String
  | 0, _ => []
  | _, [] => []
  | fuel + 1, c :: cs => c :: uniqueFirstAux fuel (cs.filter (fun x => x != c))

/-- pandas unique(): distinct values in order of first occurrence. -/
def uniqueFirst (l : List String) : List String := uniqueFirstAux l.length l

/-- The city_stats entry for one city (the body of the for-loop over
    df.city.unique() in _process_batch). -/
def cityStat (records : List ZoneRecord) (c : String) : CityStat :=
  let sub := records.filter (fun r => r.city == c)
  { total_co2 := round2 (sub.map (·.co2_kg_hr)).sum
    avg_aqi := round1 (listMean (sub.map (·.aqi)))
    avg_pm25 := round1 (listMean (sub.map (·.pm25)))
    count := sub.length
    color := ((configLookup c).map (·.color)).getD "#7fff00"
    emoji := ((configLookup c).map (·.emoji)).getD "🌿" }

/-- The dict returned by _process_batch: either the explicit empty-data
    marker (readings and cities empty, no other keys) or a full snapshot. -/
inductive Batch where
  | emptyData
  | snap (timestamp : String) (readings : List ZoneRecord)
      (total_co2 avg_aqi : ℚ) (cities : List (String × CityStat))
deriving DecidableEq

def Batch.readings : Batch → List ZoneRecord
  | .emptyData => []
  | .snap _ r _ _ _ => r

def Batch.cities : Batch → List (String × CityStat)
  | .emptyData => []
  | .snap _ _ _ _ cs => cs

/-- Embedding of AsyncProcessor._process_batch. -/
def process_batch (ts : String) (records : List ZoneRecord) : Batch :=
  if records.isEmpty then .emptyData
  else
    .snap ts records (round2 (records.map (·.co2_kg_hr)).sum)
      (round1 (listMean (records.map (·.aqi))))
      ((uniqueFirst (records.map (·.city))).map (fun c => (c, cityStat records c)))

/- ── fetch_all and the poll cycle (WAQIConnector, stream_loop) ──────────── -/

/-- Time-of-day multiplier: 1.7 in the 7-10 morning peak, 1.85 in the 18-21
    evening peak, 1.0 otherwise. -/
def timeMult (hour : ℕ) : ℚ :=
  if 7 ≤ hour ∧ hour ≤ 10 then 17/10
  else if 18 ≤ hour ∧ hour ≤ 21 then 37/20
  else 1

/-- Estimated CO2 rate derived from AQI and hour of day in fetch_all. -/
def co2Of (aqi : ℚ) (hour : ℕ) : ℚ :=
  round2 ((500 + aqi / 100 * 300) * timeMult hour / 1000 * (82/100) * 8)

/-- zone_id = city_name[:2].upper() + str(i+1). -/
def zoneId (city : String) (i : ℕ) : String :=
  String.mk ((city.data.take 2).map Char.toUpper) ++ toString (i + 1)

/-- The inner loop of fetch_all over one configured city: enumerate the
    stations from index i; a station whose fetch fails contributes nothing.
    zone_name is data["city_name"] (the key is always present in a
    fetch_station result, so the station-name default is dead). -/
def stationZones (fetch : String → Option StationData) (hour : ℕ) (city : String) :
    ℕ → List String → List ZoneRecord
  | _, [] => []
  | i, st :: rest =>
      (match fetch st with
       | none => []
       | some d =>
           [{ zone_id := zoneId city i
              zone_name := d.city_name
              city := city
              timestamp := d.timestamp
              aqi := d.aqi
              pm25 := d.pm25
              pm10 := d.pm10
              no2 := d.no2
              so2 := d.so2
              o3 := d.o3
              co := d.co
              co2_kg_hr := co2Of d.aqi hour }]) ++ stationZones fetch hour city (i + 1) rest

/-- Embedding of WAQIConnector.fetch_all: cities not in CITIES_CONFIG are
    skipped; per-station fetch outcomes are the fetch parameter. -/
def fetch_all (cities : List String) (fetch : String → Option StationData)
    (hour : ℕ) : List ZoneRecord :=
  match cities with
  | [] => []
  | c :: cs =>
      (match configLookup c with
       | none => []
       | some cfg => stationZones fetch hour c 0 cfg.stations) ++ fetch_all cs fetch hour

/-- One poll cycle as seen from main.stream_loop: WAQIConnector.stream yields
    the batch only when the fetched frame is non-empty, and only then does
    stream_loop replace _latest and broadcast.  First component: the _latest
    reference after the cycle; second: the payload broadcast to subscribers
    this cycle (none = no broadcast happened). -/
def pollCycle (latest : Option Batch) (cities : List String)
    (fetch : String → Option StationData) (hour : ℕ) (ts : String) :
    Option Batch × Option Batch :=
  let records := fetch_all cities fetch hour
  if records.isEmpty then (latest, none)
  else (some (process_batch ts records), some (process_batch ts records))

/- ── Claim C1: zero-success cycles ──────────────────────────────────────── -/

/-- A concrete prior-cycle snapshot used to exhibit staleness: one station of
    Delhi succeeded in the previous cycle. -/
def sampleStation : StationData :=
  ⟨"delhi/ito", 120, 55, 80, 10, 5, 20, 1, "t0", "Delhi ITO"⟩

def prevBatch : Batch :=
  process_batch "t0"
    (fetch_all ["Delhi"]
      (fun st => if st = "delhi/ito" then some sampleStation else none) 12)

/-- C1 counterexample: in a cycle where zero station fetches succeed, the
    Snapshot visible to readers is not the empty-data marker — the previous
    non-empty Snapshot stays in place (stream skips empty frames, so _latest
    is never replaced). -/
theorem zero_success_keeps_stale_data :
    (pollCycle (some prevBatch) configCityNames (fun _ => none) 12 "t1").1
        = some prevBatch ∧
      prevBatch.readings ≠ [] ∧ prevBatch.cities ≠ [] := by
  refine ⟨rfl, by decide, by decide⟩

/-- Auxiliary: with every fetch failing, a city contributes no zone records. -/
theorem stationZones_all_none (fetch : String → Option StationData) (hour : ℕ)
    (city : String) (h : ∀ st, fetch st = none) :
    ∀ i sts, stationZones fetch hour city i sts = [] := by
  intro i sts
  induction sts generalizing i with
  | nil => rfl
  | cons st rest ih => simp [stationZones, h st, ih]

/-- C1 amended: in a poll cycle with zero successful station fetches the
    fetched frame is empty, the stream yields nothing, and the current
    Snapshot reference keeps the prior value unchanged while no broadcast is
    sent; the empty-data marker is produced by _process_batch only for an
    empty frame, which the stream never passes to it. -/
theorem zero_success_no_publish (latest : Option Batch) (cities : List String)
    (fetch : String → Option StationData) (hour : ℕ) (ts : String)
    (h : ∀ st, fetch st = none) :
    fetch_all cities fetch hour = [] ∧
      pollCycle latest cities fetch hour ts = (latest, none) ∧
      process_batch ts [] = .emptyData := by
  have hfa : fetch_all cities fetch hour = [] := by
    induction cities with
    | nil => rfl
    | cons c cs ih =>
        cases hc : configLookup c with
        | none => simp [fetch_all, hc, ih]
        | some cfg => simp [fetch_all, hc, ih, stationZones_all_none fetch hour c h]
  exact ⟨hfa, by simp [pollCycle, hfa], rfl⟩

/-- Witness for zero_success_no_publish: all five cities active, every fetch
    failing, a non-empty prior snapshot. -/
theorem zero_success_no_publish_witness :
    fetch_all configCityNames (fun _ => none) 9 = [] ∧
      pollCycle (some prevBatch) configCityNames (fun _ => none) 9 "t1"
        = (some prevBatch, none) ∧
      process_batch "t1" [] = .emptyData :=
  zero_success_no_publish (some prevBatch) configCityNames
    (fun _ => none) 9 "t1" (fun _ => rfl)

/- ── Claim C10: per-city aggregate invariants of _process_batch ─────────── -/

/-- Membership in uniqueFirstAux agrees with membership in the input when the
    fuel covers the list length. -/
theorem uniqueFirstAux_mem (x : String) :
    ∀ (fuel : ℕ) (l : List String), l.length ≤ fuel →
      (x ∈ uniqueFirstAux fuel l ↔ x ∈ l) := by
  intro fuel
  induction fuel with
  | zero =>
      intro l hl
      have : l = [] := List.length_eq_zero.mp (Nat.le_zero.mp hl)
      subst this; rfl
  | succ fuel ih =>
      intro l hl
      cases l with
      | nil => rfl
      | cons c cs =>
          have hlen : (cs.filter (fun x => x != c)).length ≤ fuel :=
            le_trans (List.length_filter_le _ _) (Nat.succ_le_succ_iff.mp hl)
          simp only [uniqueFirstAux, List.mem_cons, ih _ hlen, List.mem_filter,
            bne_iff_ne]
          constructor
          · rintro (rfl | ⟨hx, _⟩)
            · exact .inl rfl
            · exact .inr hx
          · rintro (rfl | hx)
            · exact .inl rfl
            · by_cases hxc : x = c
              · exact .inl hxc
              · exact .inr ⟨hx, hxc⟩

theorem uniqueFirst_mem (x : String) (l : List String) :
    x ∈ uniqueFirst l ↔ x ∈ l :=
  uniqueFirstAux_mem x l.length l le_rfl

/-- count is unchanged by filtering with a predicate the element satisfies
    (restatement of the library lemma with explicit arguments). -/
theorem count_filter_of_pred (a : String) (p : String → Bool) (l : List String)
    (h : p a = true) : (l.filter p).count a = l.count a :=
  List.count_filter h

/-- Removing all copies of c splits the length into the rest plus the count. -/
theorem filter_ne_length_count (c : String) :
    ∀ cs : List String, (cs.filter (fun x => x != c)).length + cs.count c = cs.length := by
  intro cs
  induction cs with
  | nil => rfl
  | cons a l ih =>
      by_cases h : a = c
      · subst h
        simp only [List.filter_cons, bne_self_eq_false, Bool.false_eq_true,
          if_false, List.count_cons_self, List.length_cons]
        omega
      · have hbne : (a != c) = true := bne_iff_ne.mpr h
        have hbeq : (a == c) = false := by simpa using h
        simp only [List.filter_cons, hbne, List.count_cons, hbeq, List.length_cons,
          Bool.false_eq_true, if_false, if_true]
        omega

/-- Summing, over the distinct values of l, the number of occurrences in l
    gives back the length of l. -/
theorem uniqueFirstAux_sum_count :
    ∀ (fuel : ℕ) (l : List String), l.length ≤ fuel →
      ((uniqueFirstAux fuel l).map (fun c => l.count c)).sum = l.length := by
  intro fuel
  induction fuel with
  | zero =>
      intro l hl
      have : l = [] := List.length_eq_zero.mp (Nat.le_zero.mp hl)
      subst this; rfl
  | succ fuel ih =>
      intro l hl
      cases l with
      | nil => rfl
      | cons c cs =>
          have hlen : (cs.filter (fun x => x != c)).length ≤ fuel :=
            le_trans (List.length_filter_le _ _) (Nat.succ_le_succ_iff.mp hl)
          have hmapeq :
              (uniqueFirstAux fuel (cs.filter (fun x => x != c))).map
                  (fun x => (c :: cs).count x) =
                (uniqueFirstAux fuel (cs.filter (fun x => x != c))).map
                  (fun x => (cs.filter (fun y => y != c)).count x) := by
            refine List.map_congr_left ?_
            intro x hx
            have hxf : x ∈ cs.filter (fun y => y != c) :=
              (uniqueFirstAux_mem x fuel _ hlen).mp hx
            have hxne : x ≠ c := by
              have := (List.mem_filter.mp hxf).2
              exact bne_iff_ne.mp this
            have hcx : (c == x) = false := by
              simpa using fun hcx : c = x => hxne hcx.symm
            rw [List.count_cons, hcx]
            simp only [Bool.false_eq_true, if_false, Nat.add_zero]
            exact (count_filter_of_pred x (fun y => y != c) cs
              (bne_iff_ne.mpr hxne)).symm
          simp only [uniqueFirstAux, List.map_cons, List.sum_cons, hmapeq,
            ih _ hlen, List.count_cons_self, List.length_cons]
          have := filter_ne_length_count c cs
          omega

theorem uniqueFirst_sum_count (l : List String) :
    ((uniqueFirst l).map (fun c => l.count c)).sum = l.length :=
  uniqueFirstAux_sum_count l.length l le_rfl

/-- C10: for every non-empty batch of zone records, the snapshot produced by
    _process_batch has per-city aggregates keyed by exactly the city names
    occurring among the readings; each count equals the number of readings of
    that city (hence is at least 1); and the counts sum to the total number
    of readings. -/
theorem process_batch_city_aggregates (ts : String) (records : List ZoneRecord)
    (h : records ≠ []) :
    (∀ c, c ∈ (process_batch ts records).cities.map Prod.fst ↔
        c ∈ records.map (fun r => r.city)) ∧
      (∀ p ∈ (process_batch ts records).cities,
        p.2.count = (records.filter (fun r => r.city == p.1)).length ∧
          1 ≤ p.2.count) ∧
      ((process_batch ts records).cities.map (fun p => p.2.count)).sum
        = records.length := by
  have hne : records.isEmpty = false := by
    cases records with
    | nil => exact absurd rfl h
    | cons a l => rfl
  have hcities : (process_batch ts records).cities =
      (uniqueFirst (records.map (fun r => r.city))).map
        (fun c => (c, cityStat records c)) := by
    simp [process_batch, hne, Batch.cities]
  refine ⟨?_, ?_, ?_⟩
  · intro c
    rw [hcities, List.map_map]
    have : (Prod.fst ∘ fun c => (c, cityStat records c)) = id := rfl
    rw [this, List.map_id]
    exact uniqueFirst_mem c _
  · intro p hp
    rw [hcities] at hp
    obtain ⟨c, hc, rfl⟩ := List.mem_map.mp hp
    refine ⟨rfl, ?_⟩
    have hcm : c ∈ records.map (fun r => r.city) := (uniqueFirst_mem c _).mp hc
    obtain ⟨r, hr, hrc⟩ := List.mem_map.mp hcm
    have hrf : r ∈ records.filter (fun r => r.city == c) :=
      List.mem_filter.mpr ⟨hr, by simpa using hrc⟩
    have hpos : 0 < (records.filter (fun r => r.city == c)).length :=
      List.length_pos.mpr (fun hnil => by simp [hnil] at hrf)
    exact hpos
  · rw [hcities, List.map_map]
    have hfun : ((fun p : String × CityStat => p.2.count) ∘
        fun c => (c, cityStat records c)) =
        fun c => (records.map (fun r => r.city)).count c := by
      funext c
      show (records.filter (fun r => r.city == c)).length
          = (records.map (fun r => r.city)).count c
      rw [List.count, List.countP_map, ← List.countP_eq_length_filter]
      rfl
    rw [hfun, uniqueFirst_sum_count, List.length_map]

/-- Concrete records for the C10 witness: two Delhi readings, one Mumbai. -/
def wRecords : List ZoneRecord :=
  [ ⟨"DE1", "Anand Vihar", "Delhi", "t", 100, 50, 0, 0, 0, 0, 0, 5⟩,
    ⟨"DE2", "ITO", "Delhi", "t", 200, 80, 0, 0, 0, 0, 0, 7⟩,
    ⟨"MU1", "Worli", "Mumbai", "t", 90, 40, 0, 0, 0, 0, 0, 4⟩ ]

/-- Witness for process_batch_city_aggregates on a concrete 3-reading batch. -/
theorem process_batch_city_aggregates_witness :
    wRecords ≠ [] ∧
      ((∀ c, c ∈ (process_batch "t" wRecords).cities.map Prod.fst ↔
          c ∈ wRecords.map (fun r => r.city)) ∧
        (∀ p ∈ (process_batch "t" wRecords).cities,
          p.2.count = (wRecords.filter (fun r => r.city == p.1)).length ∧
            1 ≤ p.2.count) ∧
        ((process_batch "t" wRecords).cities.map (fun p => p.2.count)).sum
          = wRecords.length) :=
  ⟨by decide, process_batch_city_aggregates "t" wRecords (by decide)⟩

/- ── Subscriber registry and broadcast (main.stream_loop, main.ws_endpoint) ─ -/

/-- Subscriber handles compared by identity; modelled as naturals. -/
abbrev Subscriber := ℕ

/-- The dead list collected by the send loop: every client whose send raised
    (iteration is over list(_ws_clients), a stable copy of the registry). -/
def deadOf (clients : List Subscriber) (fails : Subscriber → Bool) : List Subscriber :=
  clients.filter fails

/-- The removal loop after the sends: for ws in dead, remove from the
    registry if still present. -/
def pruneDead (registry dead : List Subscriber) : List Subscriber :=
  dead.foldl (fun reg w => if w ∈ reg then reg.erase w else reg) registry

/-- One broadcast pass of stream_loop over a registry: the registry after
    dead-client pruning, and the clients whose send succeeded (in iteration
    order). -/
def broadcastStep (registry : List Subscriber) (fails : Subscriber → Bool) :
    List Subscriber × List Subscriber :=
  (pruneDead registry (deadOf registry fails),
   registry.filter (fun c => !fails c))

/-- The full loop body of stream_loop for one yielded batch: _latest is set
    to the batch before the sends and is never written by the send loop or
    the pruning, so the batch passes through unchanged whatever fails. -/
def broadcastCycle (batch : Batch) (registry : List Subscriber)
    (fails : Subscriber → Bool) : Batch × List Subscriber × List Subscriber :=
  (batch, broadcastStep registry fails)

/-- Registry after n further broadcast cycles, cycle k failing per fs k. -/
def regAfter (registry : List Subscriber) (fs : ℕ → Subscriber → Bool) :
    ℕ → List Subscriber
  | 0 => registry
  | n + 1 => (broadcastStep (regAfter registry fs n) (fs n)).1

/-- The clients delivered to in cycle n. -/
def deliveredAt (registry : List Subscriber) (fs : ℕ → Subscriber → Bool)
    (n : ℕ) : List Subscriber :=
  (broadcastStep (regAfter registry fs n) (fs n)).2

/-- The membership guard in the removal loop is redundant: erase is a no-op
    on an absent element. -/
theorem pruneDead_eq_foldl_erase (dead : List Subscriber) :
    ∀ registry : List Subscriber,
      pruneDead registry dead = dead.foldl (fun reg w => reg.erase w) registry := by
  induction dead with
  | nil => intro registry; rfl
  | cons w d ih =>
      intro registry
      show pruneDead (if w ∈ registry then registry.erase w else registry) d
          = List.foldl _ (registry.erase w) d
      by_cases hw : w ∈ registry
      · rw [if_pos hw, ih]
      · rw [if_neg hw, List.erase_of_not_mem hw, ih]

/-- Erasing elements that all differ from the head leaves the head in place. -/
theorem foldl_erase_cons_of_ne (a : Subscriber) :
    ∀ (d l : List Subscriber), (∀ x ∈ d, x ≠ a) →
      d.foldl (fun reg w => reg.erase w) (a :: l)
        = a :: d.foldl (fun reg w => reg.erase w) l := by
  intro d
  induction d with
  | nil => intro l _; rfl
  | cons w d ih =>
      intro l hd
      have hwa : a ≠ w := fun h => hd w (List.mem_cons_self w d) h.symm
      show List.foldl _ ((a :: l).erase w) d = a :: List.foldl _ (l.erase w) d
      rw [List.erase_cons_tail (by simpa using hwa)]
      exact ih (l.erase w) (fun x hx => hd x (List.mem_cons_of_mem w hx))

/-- Erasing exactly the p-satisfying elements of l from l leaves the
    p-violating elements, in order. -/
theorem foldl_erase_filter (p : Subscriber → Bool) :
    ∀ l : List Subscriber,
      (l.filter p).foldl (fun reg w => reg.erase w) l
        = l.filter (fun c => !p c) := by
  intro l
  induction l with
  | nil => rfl
  | cons a l ih =>
      by_cases hp : p a = true
      · rw [List.filter_cons_of_pos hp]
        show List.foldl _ ((a :: l).erase a) (l.filter p) = _
        rw [List.erase_cons_head, ih, List.filter_cons_of_neg (by simp [hp])]
      · have hp' : p a = false := Bool.eq_false_iff.mpr hp
        rw [List.filter_cons_of_neg (by simp [hp'])]
        rw [foldl_erase_cons_of_ne a (l.filter p) l
          (fun x hx hxa => by
            have := (List.mem_filter.mp hx).2
            rw [hxa, hp'] at this
            exact Bool.false_ne_true this)]
        rw [ih, List.filter_cons_of_pos (by simp [hp'])]

/-- The registry after a broadcast is exactly the clients whose send
    succeeded, in their original order. -/
theorem broadcastStep_registry (registry : List Subscriber)
    (fails : Subscriber → Bool) :
    (broadcastStep registry fails).1 = registry.filter (fun c => !fails c) := by
  show pruneDead registry (deadOf registry fails) = _
  rw [deadOf, pruneDead_eq_foldl_erase, foldl_erase_filter]

/-- A client absent from the registry is neither delivered to nor present
    afterwards. -/
theorem broadcastStep_absent (registry : List Subscriber)
    (fails : Subscriber → Bool) (c : Subscriber) (hc : c ∉ registry) :
    c ∉ (broadcastStep registry fails).1 ∧ c ∉ (broadcastStep registry fails).2 := by
  constructor
  · rw [broadcastStep_registry]
    exact fun h => hc (List.mem_filter.mp h).1
  · exact fun h => hc (List.mem_filter.mp h).1

/-- C4: on every broadcast, a subscriber whose send fails is removed from the
    registry and receives no delivery in that or any later cycle; delivery to
    every remaining subscriber still proceeds, and the Snapshot batch is
    unchanged by the failure. -/
theorem broadcast_failure_isolation (registry : List Subscriber)
    (fs : ℕ → Subscriber → Bool) (c : Subscriber) (batch : Batch)
    (hc : c ∈ registry) (hf : fs 0 c = true) :
    (broadcastCycle batch registry (fs 0)).1 = batch ∧
      regAfter registry fs 1 = registry.filter (fun d => !fs 0 d) ∧
      (∀ n, c ∉ deliveredAt registry fs n) ∧
      (∀ n, 1 ≤ n → c ∉ regAfter registry fs n) ∧
      (∀ d ∈ registry, fs 0 d = false →
        d ∈ deliveredAt registry fs 0 ∧ d ∈ regAfter registry fs 1) := by
  have hreg1 : regAfter registry fs 1 = registry.filter (fun d => !fs 0 d) :=
    broadcastStep_registry registry (fs 0)
  have habsent : ∀ n, 1 ≤ n → c ∉ regAfter registry fs n := by
    intro n hn
    induction n with
    | zero => omega
    | succ m ihm =>
        cases Nat.lt_or_ge m 1 with
        | inl hm =>
            have hm0 : m = 0 := by omega
            subst hm0
            rw [hreg1]
            intro hmem
            have := (List.mem_filter.mp hmem).2
            rw [hf] at this
            exact Bool.false_ne_true (by simpa using this)
        | inr hm =>
            exact (broadcastStep_absent (regAfter registry fs m) (fs m) c
              (ihm hm)).1
  refine ⟨rfl, hreg1, ?_, habsent, ?_⟩
  · intro n
    cases Nat.eq_zero_or_pos n with
    | inl h0 =>
        subst h0
        show c ∉ (broadcastStep registry (fs 0)).2
        intro hmem
        have := (List.mem_filter.mp hmem).2
        rw [hf] at this
        exact Bool.false_ne_true (by simpa using this)
    | inr hpos =>
        exact (broadcastStep_absent (regAfter registry fs n) (fs n) c
          (habsent n hpos)).2
  · intro d hd hdf
    constructor
    · exact List.mem_filter.mpr ⟨hd, by simp [hdf]⟩
    · rw [hreg1]
      exact List.mem_filter.mpr ⟨hd, by simp [hdf]⟩

/-- Witness for broadcast_failure_isolation: registry of clients 0 and 1,
    client 0 failing in every cycle. -/
theorem broadcast_failure_isolation_witness :
    (0 : Subscriber) ∈ [0, 1] ∧ (fun (_ : ℕ) (s : Subscriber) => s == 0) 0 0 = true ∧
      ((broadcastCycle Batch.emptyData [0, 1]
          ((fun (_ : ℕ) (s : Subscriber) => s == 0) 0)).1 = Batch.emptyData ∧
        regAfter [0, 1] (fun _ s => s == 0) 1 = [0, 1].filter (fun d => !(d == 0)) ∧
        (∀ n, 0 ∉ deliveredAt [0, 1] (fun _ s => s == 0) n) ∧
        (∀ n, 1 ≤ n → 0 ∉ regAfter [0, 1] (fun _ s => s == 0) n) ∧
        (∀ d ∈ [0, 1], (d == 0) = false →
          d ∈ deliveredAt [0, 1] (fun _ s => s == 0) 0 ∧
            d ∈ regAfter [0, 1] (fun _ s => s == 0) 1)) :=
  ⟨by decide, by decide,
    broadcast_failure_isolation [0, 1] (fun _ s => s == 0) 0 Batch.emptyData
      (by decide) (by decide)⟩

/-- Embedding of the registration path of main.ws_endpoint: append the new
    socket to _ws_clients unconditionally, then send the current _latest to
    it if one exists (the initial _latest is the empty dict, which is falsy;
    every batch assigned by stream_loop is a non-empty dict).  The second
    component is what the new subscriber is sent at registration. -/
def wsRegister (registry : List Subscriber) (latest : Option Batch)
    (c : Subscriber) : List Subscriber × Option Batch :=
  (registry ++ [c], latest)

/-- A minimal snapshot value for witnesses. -/
def tinyBatch : Batch := Batch.snap "t" [] 0 0 []

/-- C5: registration adds the subscriber unconditionally; if a Snapshot from
    a completed cycle exists it is sent to the new subscriber immediately,
    otherwise nothing is sent at registration; and once registered the
    subscriber is delivered the next broadcast (if its send succeeds). -/
theorem register_unconditional_immediate (registry : List Subscriber)
    (latest : Option Batch) (c : Subscriber) :
    (wsRegister registry latest c).1 = registry ++ [c] ∧
      c ∈ (wsRegister registry latest c).1 ∧
      (∀ b, latest = some b → (wsRegister registry latest c).2 = some b) ∧
      (latest = none → (wsRegister registry latest c).2 = none) ∧
      (∀ fails, fails c = false →
        c ∈ (broadcastStep (wsRegister registry latest c).1 fails).2) := by
  refine ⟨rfl, ?_, ?_, ?_, ?_⟩
  · exact List.mem_append.mpr (.inr (List.mem_singleton.mpr rfl))
  · intro b hb; simpa [wsRegister] using hb
  · intro hn; simpa [wsRegister] using hn
  · intro fails hfc
    show c ∈ (registry ++ [c]).filter (fun d => !fails d)
    exact List.mem_filter.mpr
      ⟨List.mem_append.mpr (.inr (List.mem_singleton.mpr rfl)), by simp [hfc]⟩

/-- Witness for register_unconditional_immediate: a late joiner when a
    snapshot exists receives it immediately, and receives the next broadcast. -/
theorem register_unconditional_immediate_witness :
    (wsRegister [7] (some tinyBatch) 5).1 = [7] ++ [5] ∧
      (wsRegister [7] (some tinyBatch) 5).2 = some tinyBatch ∧
      5 ∈ (broadcastStep (wsRegister [7] (some tinyBatch) 5).1
        (fun _ => false)).2 :=
  ⟨(register_unconditional_immediate [7] (some tinyBatch) 5).1,
    (register_unconditional_immediate [7] (some tinyBatch) 5).2.2.1 tinyBatch rfl,
    (register_unconditional_immediate [7] (some tinyBatch) 5).2.2.2.2
      (fun _ => false) rfl⟩

/- ── RAG query wait loop (rag.py, LangchainRAG.query_stream) ────────────── -/

/-- Fragments yielded by query_stream before reaching the retrieval path. -/
inductive Frag where
  | progress (msg : String) (sec : ℕ)
  | initError (msg : String)
  | timedOut
  | answerPath
deriving DecidableEq

/-- The stage_msg dict lookup with its default. -/
def stageMsg (stage : String) : String :=
  if stage = "starting" then "Initializing..."
  else if stage = "initializing_embeddings" then "Initializing embeddings API..."
  else if stage = "loading_vectors" then "Loading vector database..."
  else if stage = "loading_llm" then "Loading language model..."
  else "Working... (" ++ stage ++ ")"

/-- Discrete-time embedding of the wait loop at the top of query_stream.
    Time advances one second per iteration (check_interval = 1.0); ready t,
    err t and stage t are the values of _ready, _init_error and _init_stage
    after t seconds.  n is the current iteration time, eV the value of the
    elapsed variable tested by the while condition (one iteration stale,
    exactly as in the source), lp the last_progress variable (initially -10).
    The fuel only bounds recursion depth; 182 suffices from the initial
    state, as proved below.  answerPath abbreviates the retrieval and
    generation continuation taken once _ready is observed true. -/
def waitFrom (ready : ℕ → Bool) (err : ℕ → Option String) (stage : ℕ → String) :
    ℕ → ℕ → ℕ → Int → List Frag
  | 0, _, _, _ => []
  | fuel + 1, n, eV, lp =>
      if ready n = false ∧ eV < 180 then
        match err n with
        | some m => [Frag.initError m]
        | none =>
            (if 5 ≤ (n : Int) - lp then [Frag.progress (stageMsg (stage n)) n]
             else [])
              ++ waitFrom ready err stage fuel (n + 1) n
                  (if 5 ≤ (n : Int) - lp then (n : Int) else lp)
      else
        if ready n then [Frag.answerPath]
        else
          match err n with
          | some m => [Frag.initError m]
          | none => [Frag.timedOut]

/-- The wait-phase fragments of one query_stream call: timeout = 180 s,
    elapsed = 0 and last_progress = -10 initially. -/
def queryStreamFrags (ready : ℕ → Bool) (err : ℕ → Option String)
    (stage : ℕ → String) : List Frag :=
  waitFrom ready err stage 182 0 0 (-10)

/-- Shape of the wait loop output when readiness never arrives and no init
    error is set within the loop horizon: some progress fragments, then the
    single timeout fragment, with the head being a progress fragment as soon
    as the progress condition holds at entry. -/
theorem waitFrom_timeout_shape (ready : ℕ → Bool) (err : ℕ → Option String)
    (stage : ℕ → String)
    (hr : ∀ t, t ≤ 181 → ready t = false) (he : ∀ t, t ≤ 181 → err t = none) :
    ∀ (fuel n eV : ℕ) (lp : Int), n ≤ eV + 1 → eV ≤ 180 → 182 ≤ fuel + n →
      ∃ ps, waitFrom ready err stage fuel n eV lp = ps ++ [Frag.timedOut] ∧
        (∀ f ∈ ps, ∃ s m, f = Frag.progress s m) ∧
        (eV < 180 → 5 ≤ (n : Int) - lp →
          (waitFrom ready err stage fuel n eV lp).head?
            = some (Frag.progress (stageMsg (stage n)) n)) := by
  intro fuel
  induction fuel with
  | zero => intro n eV lp h1 h2 h3; omega
  | succ fuel ih =>
      intro n eV lp h1 h2 h3
      have hn : n ≤ 181 := by omega
      have hrn := hr n hn
      have hen := he n hn
      by_cases heV : eV < 180
      · by_cases hprog : 5 ≤ (n : Int) - lp
        · obtain ⟨ps, heq, hshape, _⟩ :=
            ih (n + 1) n (n : Int) (by omega) (by omega) (by omega)
          refine ⟨Frag.progress (stageMsg (stage n)) n :: ps, ?_, ?_, ?_⟩
          · show waitFrom ready err stage (fuel + 1) n eV lp = _
            simp [waitFrom, hrn, heV, hen, hprog, heq]
          · intro f hf
            rcases List.mem_cons.mp hf with hfe | hf'
            · exact ⟨_, _, hfe⟩
            · exact hshape f hf'
          · intro _ _
            show (waitFrom ready err stage (fuel + 1) n eV lp).head? = _
            simp [waitFrom, hrn, heV, hen, hprog]
        · obtain ⟨ps, heq, hshape, _⟩ :=
            ih (n + 1) n lp (by omega) (by omega) (by omega)
          refine ⟨ps, ?_, hshape, ?_⟩
          · show waitFrom ready err stage (fuel + 1) n eV lp = _
            simp [waitFrom, hrn, heV, hen, hprog, heq]
          · intro _ hcontra
            exact absurd hcontra hprog
      · have hcond : ¬(ready n = false ∧ eV < 180) := fun hcc => heV hcc.2
        refine ⟨[], ?_, by simp, fun h _ => absurd h heV⟩
        show waitFrom ready err stage (fuel + 1) n eV lp = _
        simp [waitFrom, hcond, hrn, hen]
        exact fun hcc => absurd hcc heV

/-- C3: a query that starts while the retrieval backend is not ready and
    whose initialization does not complete (and sets no error) within the
    configured 180 s timeout produces a finite fragment stream consisting of
    human-readable progress fragments followed by exactly one terminal
    timeout fragment and nothing after it; the first fragment is already a
    progress fragment, and the query never hangs (the output is a finite
    list reached in at most 182 loop iterations). -/
theorem query_stream_timeout_terminal (ready : ℕ → Bool)
    (err : ℕ → Option String) (stage : ℕ → String)
    (hr : ∀ t, t ≤ 181 → ready t = false) (he : ∀ t, t ≤ 181 → err t = none) :
    ∃ ps, queryStreamFrags ready err stage = ps ++ [Frag.timedOut] ∧
      (∀ f ∈ ps, ∃ s m, f = Frag.progress s m) ∧
      Frag.timedOut ∉ ps ∧
      (queryStreamFrags ready err stage).head?
        = some (Frag.progress (stageMsg (stage 0)) 0) := by
  obtain ⟨ps, heq, hshape, hhead⟩ :=
    waitFrom_timeout_shape ready err stage hr he 182 0 0 (-10)
      (by omega) (by omega) (by omega)
  refine ⟨ps, heq, hshape, ?_, hhead (by omega) (by omega)⟩
  intro hmem
  obtain ⟨s, m, hsm⟩ := hshape _ hmem
  exact Frag.noConfusion hsm

/-- Witness for query_stream_timeout_terminal: the backend never becomes
    ready and never errors, with the stage stuck at "starting". -/
theorem query_stream_timeout_terminal_witness :
    ∃ ps, queryStreamFrags (fun _ => false) (fun _ => none) (fun _ => "starting")
        = ps ++ [Frag.timedOut] ∧
      (∀ f ∈ ps, ∃ s m, f = Frag.progress s m) ∧
      Frag.timedOut ∉ ps ∧
      (queryStreamFrags (fun _ => false) (fun _ => none)
        (fun _ => "starting")).head?
        = some (Frag.progress (stageMsg "starting") 0) :=
  query_stream_timeout_terminal (fun _ => false) (fun _ => none)
    (fun _ => "starting") (fun _ _ => rfl) (fun _ _ => rfl)

/- ── Keyword retrieval (spec-modelled; corpus titles from rag.POLICIES) ─── -/

/-- Split a character stream into space-separated words (acc holds the
    current word reversed). -/
def wordsSplit : List Char → List Char → List String
  | acc, [] => if acc.isEmpty then [] else [String.mk acc.reverse]
  | acc, c :: cs =>
      if c = ' ' then
        (if acc.isEmpty then [] else [String.mk acc.reverse]) ++ wordsSplit [] cs
      else wordsSplit (c :: acc) cs

/-- Lowercased words of a string. -/
def lowerWords (s : String) : List String :=
  wordsSplit [] (s.data.map Char.toLower)

/-- A policy document as seen by the keyword scorer: stable id and title are
    those of rag.POLICIES; the keyword list of the missing implementation is
    unknown and left as a field. -/
structure PolicyDoc where
  id : String
  title : String
  keywords : List String
deriving DecidableEq

def ncapDoc : PolicyDoc :=
  ⟨"NCAP_2019", "National Clean Air Programme (NCAP) 2019", []⟩
def grapDoc : PolicyDoc :=
  ⟨"GRAP_2023", "Graded Response Action Plan (GRAP) 2023", []⟩
def smartEnergyDoc : PolicyDoc :=
  ⟨"SMART_ENERGY_2022", "Smart City Energy Efficiency MoHUA 2022", []⟩
def trafficDoc : PolicyDoc :=
  ⟨"TRAFFIC_CPCB", "Urban Traffic Emission Reduction CPCB Guidelines", []⟩
def industrialDoc : PolicyDoc :=
  ⟨"INDUSTRIAL_BEE", "Industrial Zone Emission Control BEE Standards", []⟩
def ndcDoc : PolicyDoc :=
  ⟨"NDC_INDIA", "India NDC Paris Agreement Climate Commitments", []⟩
def greenBharatDoc : PolicyDoc :=
  ⟨"GREEN_BHARAT_2024", "Green Bharat Mission 2024 Carbon Neutral Cities", []⟩
def emergencySopDoc : PolicyDoc :=
  ⟨"EMERGENCY_SOP", "City Emergency Response SOP Pollution Events", []⟩

/-- The fixed eight-document corpus (ids and titles from rag.POLICIES). -/
def POLICIES : List PolicyDoc :=
  [ncapDoc, grapDoc, smartEnergyDoc, trafficDoc, industrialDoc, ndcDoc,
   greenBharatDoc, emergencySopDoc]

/-- Modelled from the spec: the keyword retrieval strategy ("score each
    whole document by count of title-word and keyword matches against the
    lowercased question") has no implementation under src/ — rag.py contains
    only the FAISS similarity path — so the scorer is taken from the words
    of the spec: the number of title words and keywords of the document that
    occur among the words of the lowercased question. -/
def kwScore (q : String) (d : PolicyDoc) : ℕ :=
  (lowerWords d.title ++ d.keywords).countP (fun w => decide (w ∈ lowerWords q))

/-- The question uses only terms from the title/keywords of d. -/
def onlyTermsOf (q : String) (d : PolicyDoc) : Prop :=
  ∀ w ∈ lowerWords q, w ∈ lowerWords d.title ++ d.keywords

instance (q : String) (d : PolicyDoc) : Decidable (onlyTermsOf q d) := by
  unfold onlyTermsOf; infer_instance

/-- A scored document together with its corpus position. -/
structure Ranked where
  idx : ℕ
  doc : PolicyDoc
  score : ℕ
deriving DecidableEq

/-- Scoring pass over the corpus, recording corpus positions from i. -/
def rankFrom (q : String) : ℕ → List PolicyDoc → List Ranked
  | _, [] => []
  | i, d :: ds => ⟨i, d, kwScore q d⟩ :: rankFrom q (i + 1) ds

/-- Modelled from the spec: ordering of returned documents — score
    descending, ties broken by original corpus order. -/
def keyLe (a b : Ranked) : Prop :=
  b.score < a.score ∨ (a.score = b.score ∧ a.idx ≤ b.idx)

instance : DecidableRel keyLe := fun a b => by unfold keyLe; infer_instance

instance : IsTotal Ranked keyLe := ⟨by
  intro a b
  rcases Nat.lt_trichotomy a.score b.score with h | h | h
  · exact .inr (.inl h)
  · rcases Nat.le_total a.idx b.idx with h2 | h2
    · exact .inl (.inr ⟨h, h2⟩)
    · exact .inr (.inr ⟨h.symm, h2⟩)
  · exact .inl (.inl h)⟩

instance : IsTrans Ranked keyLe := ⟨by
  intro a b c hab hbc
  unfold keyLe at *
  omega⟩

/-- Modelled from the spec: the ranked output of keyword retrieval — score
    every document, drop zero scores, sort by score descending with ties in
    corpus order, keep the top k. -/
def rankedOutput (docs : List PolicyDoc) (q : String) (k : ℕ) : List Ranked :=
  (List.insertionSort keyLe
    ((rankFrom q 0 docs).filter (fun r => decide (0 < r.score)))).take k

/-- Modelled from the spec: the documents returned by keyword retrieval. -/
def retrieveKeyword (docs : List PolicyDoc) (q : String) (k : ℕ) : List PolicyDoc :=
  (rankedOutput docs q k).map (fun r => r.doc)

/-- C8 counterexample: the question "emission" contains only terms from the
    title of the INDUSTRIAL_BEE document, yet that document is not ranked
    first — TRAFFIC_CPCB also scores 1 and wins the tie by corpus order. -/
theorem keyword_first_place_counterexample :
    onlyTermsOf "emission" industrialDoc ∧
      industrialDoc ∈ POLICIES ∧
      0 < kwScore "emission" industrialDoc ∧
      (retrieveKeyword POLICIES "emission" 3).head? = some trafficDoc ∧
      trafficDoc ≠ industrialDoc := by
  refine ⟨by decide, by decide, by decide, by decide, by decide⟩

/-- Every ranked entry comes from the corpus slice it was built from, and
    carries the score of its document. -/
theorem rankFrom_mem (q : String) :
    ∀ (i : ℕ) (ds : List PolicyDoc) (r : Ranked), r ∈ rankFrom q i ds →
      r.doc ∈ ds ∧ r.score = kwScore q r.doc := by
  intro i ds
  induction ds generalizing i with
  | nil => intro r hr; cases hr
  | cons d ds ih =>
      intro r hr
      rcases List.mem_cons.mp hr with rfl | hr'
      · exact ⟨List.mem_cons_self d ds, rfl⟩
      · obtain ⟨hm, hs⟩ := ih (i + 1) r hr'
        exact ⟨List.mem_cons_of_mem d hm, hs⟩

/-- Every corpus document has a ranked entry with its score. -/
theorem rankFrom_exists (q : String) (D : PolicyDoc) :
    ∀ (i : ℕ) (ds : List PolicyDoc), D ∈ ds →
      ∃ r ∈ rankFrom q i ds, r.doc = D ∧ r.score = kwScore q D := by
  intro i ds
  induction ds generalizing i with
  | nil => intro h; cases h
  | cons d ds ih =>
      intro hD
      rcases List.mem_cons.mp hD with rfl | hD'
      · exact ⟨⟨i, D, kwScore q D⟩, List.mem_cons_self _ _, rfl, rfl⟩
      · obtain ⟨r, hr, hrd, hrs⟩ := ih (i + 1) hD'
        exact ⟨r, List.mem_cons_of_mem _ hr, hrd, hrs⟩

/-- C8 amended: returned documents are in score-descending order with ties
    broken by original corpus order (the ranked output is sorted under
    keyLe); every returned document has a strictly positive score (zero
    scorers are excluded entirely); and a document D whose score is strictly
    greater than that of every other document — in particular a question
    whose terms give D the unique best score — is ranked first.  A question
    containing only terms of D does not by itself put D first (see the
    counterexample): the strict-maximum condition is what forces first
    place. -/
theorem keyword_retrieval_order (docs : List PolicyDoc) (q : String) (k : ℕ)
    (D : PolicyDoc) (hD : D ∈ docs) (hpos : 0 < kwScore q D)
    (hmax : ∀ d ∈ docs, d ≠ D → kwScore q d < kwScore q D) (hk : 1 ≤ k) :
    List.Sorted keyLe (rankedOutput docs q k) ∧
      (∀ d ∈ retrieveKeyword docs q k, 0 < kwScore q d ∧ d ∈ docs) ∧
      (retrieveKeyword docs q k).head? = some D := by
  classical
  set pfilter : Ranked → Bool := fun r => decide (0 < r.score) with hpf
  set F : List Ranked := (rankFrom q 0 docs).filter pfilter with hF
  set L : List Ranked := List.insertionSort keyLe F with hL
  have hsortL : List.Sorted keyLe L := List.sorted_insertionSort keyLe F
  have hpermL : List.Perm L F := List.perm_insertionSort keyLe F
  have hmemL : ∀ r ∈ L, r.doc ∈ docs ∧ r.score = kwScore q r.doc ∧ 0 < r.score := by
    intro r hr
    have hrF : r ∈ F := hpermL.subset hr
    have hrank := List.mem_filter.mp hrF
    obtain ⟨hmd, hsc⟩ := rankFrom_mem q 0 docs r hrank.1
    refine ⟨hmd, hsc, ?_⟩
    have := hrank.2
    rw [hpf] at this
    exact of_decide_eq_true this
  obtain ⟨rD, hrD, hrDdoc, hrDscore⟩ := rankFrom_exists q D 0 docs hD
  have hrDF : rD ∈ F := by
    refine List.mem_filter.mpr ⟨hrD, ?_⟩
    rw [hpf]
    exact decide_eq_true (by rw [hrDscore]; exact hpos)
  have hrDL : rD ∈ L := hpermL.mem_iff.mpr hrDF
  have hLne : L ≠ [] := fun hnil => by rw [hnil] at hrDL; cases hrDL
  obtain ⟨h, t, hht⟩ := List.exists_cons_of_ne_nil hLne
  have hhmem : h ∈ L := by rw [hht]; exact List.mem_cons_self h t
  obtain ⟨hhdoc, hhscore, hhpos⟩ := hmemL h hhmem
  have hhrel : ∀ y ∈ t, keyLe h y := by
    rw [hht] at hsortL
    exact (List.sorted_cons.mp hsortL).1
  have hhD : h.doc = D := by
    by_contra hne
    have hlt : kwScore q h.doc < kwScore q D := hmax h.doc hhdoc hne
    rw [hht] at hrDL
    rcases List.mem_cons.mp hrDL with rfl | hrDt
    · exact hne hrDdoc
    · have := hhrel rD hrDt
      rw [keyLe] at this
      rw [hrDscore] at this
      rw [hhscore] at this
      omega
  have houtput : rankedOutput docs q k = (h :: t).take k := by
    rw [rankedOutput, ← hF, ← hL, hht]
  refine ⟨?_, ?_, ?_⟩
  · rw [rankedOutput, ← hF, ← hL]
    exact List.Pairwise.sublist (List.take_sublist k L) hsortL
  · intro d hd
    obtain ⟨r, hrtake, hrd⟩ := List.mem_map.mp hd
    have hrL : r ∈ L := List.take_subset k L (by rw [rankedOutput, ← hF, ← hL] at hrtake; exact hrtake)
    obtain ⟨hmd, hsc, hps⟩ := hmemL r hrL
    rw [← hrd]
    exact ⟨by rw [← hsc]; exact hps, hmd⟩
  · rw [retrieveKeyword, houtput]
    obtain ⟨k', rfl⟩ := Nat.exists_eq_add_of_le hk
    rw [Nat.add_comm, List.take_succ_cons, List.map_cons]
    rw [List.head?_cons, hhD]

/-- Witness for keyword_retrieval_order: the question "industrial" gives
    INDUSTRIAL_BEE the unique best score over the corpus, so it is returned
    first. -/
theorem keyword_retrieval_order_witness :
    industrialDoc ∈ POLICIES ∧ 0 < kwScore "industrial" industrialDoc ∧
      (∀ d ∈ POLICIES, d ≠ industrialDoc →
        kwScore "industrial" d < kwScore "industrial" industrialDoc) ∧
      (List.Sorted keyLe (rankedOutput POLICIES "industrial" 3) ∧
        (∀ d ∈ retrieveKeyword POLICIES "industrial" 3,
          0 < kwScore "industrial" d ∧ d ∈ POLICIES) ∧
        (retrieveKeyword POLICIES "industrial" 3).head? = some industrialDoc) :=
  ⟨by decide, by decide, by decide,
    keyword_retrieval_order POLICIES "industrial" 3 industrialDoc
      (by decide) (by decide) (by decide) (by decide)⟩
